import Mathlib

/-
Verification of the p7mextractor conversion-pipeline core
(source: p7mextractor.py).

The development shallowly embeds the core logic of the application:
the file queue (`add_file_to_queue`, lines 279-284), discovery
(`process_added_items`, lines 252-265), destination-path resolution and
verifier invocation inside the worker loop (`run_conversion_thread`,
lines 330-355), the startup check (`check_openssl`, lines 320-323) and
the UI enabling logic that gates the run (`update_ui_state`,
lines 291-294).

Paths are modelled as strings (with character-list helpers mirroring
the CPython implementations of `os.path.splitext`, `os.path.join`,
`os.path.basename` and `os.path.dirname` for POSIX paths), subprocess
outcomes as `Except` values (an exception caught by the bare
`except Exception` handler, or a pair of return code and captured
standard error), and the GLib main-loop callback queue explicitly:
`GLib.idle_add` appends a callback that runs later, in FIFO order, on
the main loop.  The status-update callbacks in the worker loop are
Python closures that capture the loop variable `item` by reference
(late binding); the value they read is whatever `item` holds when the
main loop eventually runs them, which the model makes explicit through
a schedule function.
-/

namespace P7M

/-- Item status, as displayed in the Status column.  The code stores the
(translated) strings "Pending", "Processing...", "Done", "Error". -/
inductive Status where
  | pending
  | processing
  | done
  | error
  deriving DecidableEq

/-- ASCII lowering of one character, the effect of Python `str.lower()`
on the ASCII paths considered here. -/
def lowerC (c : Char) : Char :=
  if 'A' ≤ c ∧ c ≤ 'Z' then Char.ofNat (c.toNat + 32) else c

/-- Helper for the extension test: examines a reversed character list
and checks that its first four characters are (after lowering)
m, 7, p, . — that is, that the original list ends with ".p7m"
case-insensitively. -/
def p7mRev : List Char → Bool
  | a :: b :: c :: d :: _ =>
    (lowerC a == 'm') && (lowerC b == '7') && (lowerC c == 'p') && (lowerC d == '.')
  | _ => false

/-- Model of `s.lower().endswith('.p7m')` (lines 255 and 262). -/
def isP7m (cs : List Char) : Bool := p7mRev cs.reverse

/-- Model of POSIX `os.path.join(a, b)` for two components: if `b` is
absolute it wins; otherwise a separator is inserted unless `a` is empty
or already ends with one. -/
def pjoin (a b : List Char) : List Char :=
  if b.head? = some '/' then b
  else if a = [] ∨ a.getLast? = some '/' then a ++ b
  else a ++ '/' :: b

/-- Splits a character list at the last occurrence of `c`, returning
the parts before and after it, or `none` when `c` does not occur. -/
def splitLastChar (c : Char) : List Char → Option (List Char × List Char)
  | [] => none
  | a :: rest =>
    match splitLastChar c rest with
    | some (pre, post) => some (a :: pre, post)
    | none => if a = c then some ([], rest) else none

/-- Model of the root component of `os.path.splitext` on a name without
separators (the code applies it to `item.filename`, a basename): the
name is cut at its last dot, provided some character before that dot is
not itself a dot (a leading-dots-only prefix means the name is a
dotfile without extension and is returned whole). -/
def splitextBase (cs : List Char) : List Char :=
  match splitLastChar '.' cs with
  | none => cs
  | some (pre, _post) => if pre.any (fun x => ! (x == '.')) then pre else cs

/-- Removes trailing slashes, the effect of `rstrip('/')`. -/
def rstripSlash (l : List Char) : List Char :=
  (l.reverse.dropWhile (fun c => c == '/')).reverse

/-- Model of POSIX `os.path.basename`: the part after the last slash. -/
def basenameD (cs : List Char) : List Char :=
  match splitLastChar '/' cs with
  | none => cs
  | some (_pre, post) => post

/-- Model of POSIX `os.path.dirname`: the part up to the last slash,
with trailing slashes stripped unless the head consists of slashes
only. -/
def dirnameD (cs : List Char) : List Char :=
  match splitLastChar '/' cs with
  | none => []
  | some (pre, _post) =>
    let head := pre ++ ['/']
    if head.all (fun c => c == '/') then head else rstripSlash head

/-- String wrapper for `basenameD`. -/
def basenameS (s : String) : String := String.mk (basenameD s.data)

/-- String wrapper for `dirnameD`. -/
def dirnameS (s : String) : String := String.mk (dirnameD s.data)

/-- The per-row data model object (class `FileItem`, lines 53-67).
The code stores `id` as the decimal string `str(len(self.file_queue))`;
the model keeps the underlying number. -/
structure FileItem where
  id : Nat
  filename : String
  path : String
  full_path : String
  status : Status
  deriving DecidableEq

/-- The queue state: the dedup list `self.file_queue` of raw path
strings and the display model `self.model` of `FileItem` rows. -/
structure AppState where
  file_queue : List String
  model : List FileItem
  deriving DecidableEq

/-- The state at application start: both collections empty. -/
def initState : AppState := ⟨[], []⟩

/-- Model of `add_file_to_queue` (lines 279-284): a path already
present in `file_queue` is a no-op; otherwise the raw path is appended
and a `FileItem` row is appended with id `len(file_queue)` (taken after
the append, hence 1-based), `filename = basename(path)`,
`path = dirname(path)`, `full_path = path` and status Pending. -/
def addFile (s : AppState) (p : String) : AppState :=
  if p ∈ s.file_queue then s
  else
    { file_queue := s.file_queue ++ [p]
      model := s.model ++
        [⟨s.file_queue.length + 1, basenameS p, dirnameS p, p, Status.pending⟩] }

/-- Folds a sequence of `add_file_to_queue` calls over the initial
state. -/
def addAll (ps : List String) : AppState := ps.foldl addFile initState

/-- Modelled from the spec: the sublist of `ps` keeping the first
occurrence of each distinct string, in first-seen order ("each distinct
path exactly once, in first-seen order"), relative to an accumulator of
already-seen strings. -/
def firstSeenAux (seen : List String) : List String → List String
  | [] => []
  | p :: ps =>
    if p ∈ seen then firstSeenAux seen ps
    else p :: firstSeenAux (p :: seen) ps

/-- Modelled from the spec: first-occurrence deduplication of a list of
paths. -/
def firstSeen (ps : List String) : List String := firstSeenAux [] ps

/-- Splits a path into segments at slashes (the empty segment list
convention of `str.split('/')`). -/
def segsOf : List Char → List (List Char)
  | [] => [[]]
  | c :: rest =>
    if c = '/' then [] :: segsOf rest
    else
      match segsOf rest with
      | [] => [[c]]
      | s :: ss => (c :: s) :: ss

/-- Rejoins path segments with slashes. -/
def joinSegs : List (List Char) → List Char
  | [] => []
  | [s] => s
  | s :: ss => s ++ '/' :: joinSegs ss

/-- Modelled from the spec context of C10: POSIX-equivalence of path
strings up to redundant "." segments; two strings with the same
`normPath` denote the same filesystem file. -/
def normPath (cs : List Char) : List Char :=
  joinSegs ((segsOf cs).filter (fun s => ! (s == ['.'])))

/- A filesystem entry inside a scanned directory — a regular file or a
subdirectory with its children — together with `FSList`, an explicit
list of entries (a mutual encoding so that the walk below is structural
and computes).  Used to give `os.walk` a semantics. -/
mutual
inductive FSEntry where
  | file (name : List Char)
  | dir (name : List Char) (children : FSList)
inductive FSList where
  | nil
  | cons (e : FSEntry) (rest : FSList)
end

/-- Converts an ordinary list of entries to `FSList`. -/
def fsList : List FSEntry → FSList
  | [] => FSList.nil
  | e :: es => FSList.cons e (fsList es)

/-- What a path handed to `process_added_items` can be on disk: a
regular file, a directory (with its tree), or nothing relevant
(`os.path.isfile` and `os.path.isdir` both false). -/
inductive PathKind where
  | file
  | dir (children : FSList)
  | missing

/- Candidate paths produced by walking a directory tree rooted at
`root`, testing each regular file name with
`name.lower().endswith('.p7m')` and joining it to its directory (lines
260-263); `os.walk` visits every directory at every depth.  (The model
interleaves a directory's files with its subdirectory walks; `os.walk`
emits a directory's files before descending, but no claim concerns the
order of candidates.) -/
mutual
def walkEntry (root : List Char) : FSEntry → List (List Char)
  | FSEntry.file n => if isP7m n then [pjoin root n] else []
  | FSEntry.dir n cs => walkList (pjoin root n) cs
def walkList (root : List Char) : FSList → List (List Char)
  | FSList.nil => []
  | FSList.cons e rest => walkEntry root e ++ walkList root rest
end

/-- Model of `process_added_items` (lines 252-265), restricted to the
candidate paths it passes to `add_file_to_queue`: a regular-file path
is a candidate iff `path.lower().endswith('.p7m')`; a directory is
walked recursively; anything else contributes nothing. -/
def processAddedItems (inputs : List (List Char × PathKind)) : List (List Char) :=
  inputs.flatMap (fun pk =>
    match pk.2 with
    | PathKind.file => if isP7m pk.1 then [pk.1] else []
    | PathKind.dir cs => walkList pk.1 cs
    | PathKind.missing => [])

/- All regular files (full path paired with bare name) at any depth of
a directory tree: the reference point for the discovery
characterisation. -/
mutual
def allFilesEntry (root : List Char) : FSEntry → List (List Char × List Char)
  | FSEntry.file n => [(pjoin root n, n)]
  | FSEntry.dir n cs => allFilesList (pjoin root n) cs
def allFilesList (root : List Char) : FSList → List (List Char × List Char)
  | FSList.nil => []
  | FSList.cons e rest => allFilesEntry root e ++ allFilesList root rest
end

/-- Model of the output-path computation of the worker loop (lines
338-340): the output name is `splitext(item.filename)[0] + ".pdf"`, the
destination is `custom_export_path` when that is set and truthy (a
non-empty string), else `item.path`, and the two are joined with
`os.path.join`. -/
def resolveOut (filename path : String) (override : Option String) : String :=
  let base := splitextBase filename.data ++ (".pdf").data
  let dest := match override with
    | some d => if d = ("") then path else d
    | none => path
  String.mk (pjoin dest.data base)

/-- Model of the `try`/`except` block around `subprocess.run` (lines
344-349): on a completed process, success is exactly
`returncode == 0` and nothing of the captured standard error is
inspected or kept; on any exception while spawning, success is `False`
and the exception text is retained in the application log
(`logging.error(f"Conversion error: {e}")`). -/
def runVerifier (r : Except String (Int × String)) : Bool × Option String :=
  match r with
  | Except.ok (rc, _serr) => (rc == 0, none)
  | Except.error e => (false, some (("Conversion error: ") ++ e))

/-- Outcome of the subprocess attempt for item `i`: when
`shutil.which("openssl")` returned `None` (line 331), `cmd[0]` is
`None` and `subprocess.run` raises a `TypeError` before any process is
spawned; otherwise the environment determines the spawn outcome. -/
def spawnOutcome (openssl : Option String)
    (spawn : Nat → Except String (Int × String)) (i : Nat) :
    Except String (Int × String) :=
  match openssl with
  | none => Except.error ("expected str, bytes or os.PathLike object, not NoneType")
  | some _ => spawn i

/-- The worker's computed `success` flag for item `i` (line 346 or
line 349). -/
def successOf (openssl : Option String)
    (spawn : Nat → Except String (Int × String)) (i : Nat) : Bool :=
  (runVerifier (spawnOutcome openssl spawn i)).1

/-- The worker's computed per-item verdicts over a run of `n` items. -/
def verdictsOf (openssl : Option String)
    (spawn : Nat → Except String (Int × String)) (n : Nat) : List Bool :=
  (List.range n).map (successOf openssl spawn)

/-- The worker's computed terminal status per item (line 351):
Done on success, Error otherwise. -/
def computedStatuses (openssl : Option String)
    (spawn : Nat → Except String (Int × String)) (n : Nat) : List Status :=
  (List.range n).map (fun i =>
    if successOf openssl spawn i then Status.done else Status.error)

/-- The argument list built for one item (line 342). -/
def cmdFor (openssl : String) (override : Option String) (it : FileItem) :
    List String :=
  [openssl, ("smime"), ("-verify"), ("-noverify"), ("-binary"), ("-inform"),
   ("DER"), ("-in"), it.full_path, ("-out"),
   resolveOut it.filename it.path override]

/-- The verifier invocations performed by a run: the loop (lines
334-345) calls `subprocess.run` exactly once per item, unconditionally,
in queue order. -/
def runInvocations (openssl : String) (override : Option String)
    (items : List FileItem) : List (List String) :=
  items.map (cmdFor openssl override)

/-- The progress fractions handed to `GLib.idle_add` (line 353): the
argument `(i + 1) / count` is evaluated eagerly in the worker thread,
so the emitted sequence is fixed and FIFO delivery preserves its
order. -/
def progressEvents (n : Nat) : List ℚ :=
  (List.range n).map (fun (i : Nat) => ((i : ℚ) + 1) / (n : ℚ))

/-- The status writes queued by the worker loop, under a schedule.  In
iteration `i` the worker queues two closures: the Processing write
(line 336) and the terminal write (line 352).  Both capture the loop
variable `item` by reference; the terminal write binds the status value
early (the `s=status` default argument) but `item` late.  `sched k` is
the index held by `item` when the main loop runs the `k`-th queued
closure (callbacks run in FIFO order). -/
def statusWrites (verdicts : List Bool) (sched : Nat → Nat) :
    List (Nat × Status) :=
  (List.range verdicts.length).flatMap (fun i =>
    [(sched (2 * i), Status.processing),
     (sched (2 * i + 1),
      if verdicts.getD i false then Status.done else Status.error)])

/-- Applies one queued status write to the row statuses. -/
def applyWrite (sts : List Status) (w : Nat × Status) : List Status :=
  sts.set w.1 w.2

/-- The row statuses observed after the main loop has drained every
status callback of the run — that is, at the moment the
`finish_conversion` callback (queued last, line 355) runs and raises
"Extraction Complete". -/
def runDisplay (verdicts : List Bool) (sched : Nat → Nat) : List Status :=
  (statusWrites verdicts sched).foldl applyWrite
    (List.replicate verdicts.length Status.pending)

/-- A schedule is legal for a run over `n` items when it is monotone
(FIFO execution against a forward-moving loop variable) and each of the
`2 * n` status callbacks reads an `item` index no earlier than the
iteration that queued it and within the queue. -/
def ValidSchedule (n : Nat) (sched : Nat → Nat) : Prop :=
  (∀ k l, k ≤ l → sched k ≤ sched l) ∧
  (∀ k, k < 2 * n → k / 2 ≤ sched k ∧ sched k < n)

/-- The prompt schedule: the main loop runs each callback before the
worker queues the next one, so every callback reads the item of its own
iteration. -/
def promptSchedule : Nat → Nat := fun k => k / 2

/-- The deferred schedule: the main loop drains the callback queue only
after the worker loop has exited, when `item` still holds the last
row. -/
def deferredSchedule (n : Nat) : Nat → Nat := fun _k => n - 1

/-- The pieces of UI state that gate a run (`btn_convert` sensitivity,
created insensitive at line 134, and the status label, initially
"Ready" at line 185). -/
structure UIState where
  convertSensitive : Bool
  statusLabel : String
  deriving DecidableEq

/-- UI state right after window construction. -/
def initUI : UIState := ⟨false, ("Ready")⟩

/-- Model of `check_openssl` (lines 320-323), run once at activation:
when `shutil.which("openssl")` is falsy the label reports the missing
tool and the Extract button is made insensitive; otherwise nothing
changes. -/
def checkOpenssl (present : Bool) (ui : UIState) : UIState :=
  if present then ui else ⟨false, ("Error: OpenSSL not found")⟩

/-- Model of `update_ui_state` (lines 291-294), run after every add and
clear: the Extract button is made sensitive exactly when the model is
non-empty, with no regard to the openssl check. -/
def updateUiState (count : Nat) (ui : UIState) : UIState :=
  ⟨decide (0 < count), ui.statusLabel⟩

/-- Concrete two-row queue used for the failure-isolation run. -/
def itemsC5 : List FileItem :=
  [⟨1, ("a.p7m"), ("/d"), ("/d/a.p7m"), Status.pending⟩,
   ⟨2, ("b.p7m"), ("/d"), ("/d/b.p7m"), Status.pending⟩]

/-- Spawn outcomes for the failure-isolation run: item 0 exits with
code 4 (verification failure), item 1 exits cleanly. -/
def spawnC5 : Nat → Except String (Int × String) :=
  fun i => if i = 0 then Except.ok (4, ("smime: verification failure"))
           else Except.ok (0, (""))

/-- Concrete one-row queue whose resolved output directory is absent. -/
def itemC7 : FileItem :=
  ⟨1, ("r.p7m"), ("/gone"), ("/gone/r.p7m"), Status.pending⟩

/-- Directory-existence oracle of the C7 environment: no directory
exists. -/
def dirExistsC7 : String → Bool := fun _p => false

/-- Spawn outcome in the C7 environment: openssl runs and exits with
code 2, unable to open its output file. -/
def spawnC7 : Nat → Except String (Int × String) :=
  fun _i => Except.ok (2, ("/gone/r.pdf: No such file or directory"))

/-- Concrete discovery input: one top-level candidate file and one
directory tree with a nested match. -/
def inputsC9 : List (List Char × PathKind) :=
  [((("/top.P7M").data), PathKind.file),
   ((("/r").data), PathKind.dir (fsList
     [FSEntry.file (("a.txt").data),
      FSEntry.dir (("sub").data) (fsList [FSEntry.file (("b.P7m").data)])]))]

/-- The display model determined by a queue of raw paths: row `i` holds
id `i + 1`, the basename, the dirname, the raw path and status
Pending — what `add_file_to_queue` builds row by row. -/
def modelFor (q : List String) : List FileItem :=
  q.enum.map (fun pr =>
    ⟨pr.1 + 1, basenameS pr.2, dirnameS pr.2, pr.2, Status.pending⟩)

/-- The queue invariant maintained by `add_file_to_queue`: the raw-path
list has no duplicates and determines the display model. -/
def QueueInv (s : AppState) : Prop :=
  s.file_queue.Nodup ∧ s.model = modelFor s.file_queue

lemma firstSeenAux_congr (ps : List String) :
    ∀ s1 s2, (∀ x, x ∈ s1 ↔ x ∈ s2) →
      firstSeenAux s1 ps = firstSeenAux s2 ps := by
  induction ps with
  | nil => intro s1 s2 _; rfl
  | cons p ps ih =>
    intro s1 s2 hm
    simp only [firstSeenAux]
    by_cases hp : p ∈ s1
    · rw [if_pos hp, if_pos ((hm p).1 hp)]
      exact ih s1 s2 hm
    · rw [if_neg hp, if_neg (fun h => hp ((hm p).2 h))]
      rw [ih (p :: s1) (p :: s2) (fun x => by simp [List.mem_cons, hm x])]

lemma foldl_addFile_queue (ps : List String) :
    ∀ s : AppState,
      (ps.foldl addFile s).file_queue
        = s.file_queue ++ firstSeenAux s.file_queue ps := by
  induction ps with
  | nil => intro s; simp [firstSeenAux]
  | cons p ps ih =>
    intro s
    by_cases hp : p ∈ s.file_queue
    · have ha : addFile s p = s := by simp [addFile, hp]
      simp only [List.foldl_cons, ha, firstSeenAux, if_pos hp]
      exact ih s
    · have ha : (addFile s p).file_queue = s.file_queue ++ [p] := by
        simp [addFile, hp]
      simp only [List.foldl_cons, firstSeenAux, if_neg hp]
      rw [ih (addFile s p), ha,
        firstSeenAux_congr ps (s.file_queue ++ [p]) (p :: s.file_queue)
          (fun x => by simp [List.mem_append, List.mem_cons, or_comm])]
      simp

lemma mem_firstSeenAux (x : String) (ps : List String) :
    ∀ seen, (x ∈ firstSeenAux seen ps ↔ x ∈ ps ∧ x ∉ seen) := by
  induction ps with
  | nil => intro seen; simp [firstSeenAux]
  | cons p ps ih =>
    intro seen
    simp only [firstSeenAux]
    by_cases hp : p ∈ seen
    · rw [if_pos hp, ih seen]
      constructor
      · rintro ⟨h1, h2⟩
        exact ⟨List.mem_cons_of_mem _ h1, h2⟩
      · rintro ⟨h1, h2⟩
        rcases List.mem_cons.mp h1 with rfl | h1
        · exact absurd hp h2
        · exact ⟨h1, h2⟩
    · rw [if_neg hp]
      simp only [List.mem_cons, ih (p :: seen)]
      constructor
      · rintro (rfl | ⟨h1, h2⟩)
        · exact ⟨Or.inl rfl, hp⟩
        · exact ⟨Or.inr h1, fun hs => h2 (Or.inr hs)⟩
      · rintro ⟨h1, h2⟩
        by_cases hxp : x = p
        · exact Or.inl hxp
        · rcases h1 with rfl | h1
          · exact Or.inl rfl
          · refine Or.inr ⟨h1, fun hs => ?_⟩
            rcases hs with rfl | hs
            · exact hxp rfl
            · exact h2 hs

lemma addFile_inv (s : AppState) (p : String) (h : QueueInv s) :
    QueueInv (addFile s p) := by
  by_cases hp : p ∈ s.file_queue
  · simpa [addFile, hp] using h
  · obtain ⟨hnd, hm⟩ := h
    have ha : addFile s p =
        { file_queue := s.file_queue ++ [p]
          model := s.model ++
            [⟨s.file_queue.length + 1, basenameS p, dirnameS p, p,
              Status.pending⟩] } := by
      unfold addFile
      rw [if_neg hp]
    constructor
    · rw [ha]
      rw [List.nodup_append]
      refine ⟨hnd, List.nodup_singleton p, fun a hq hb => ?_⟩
      rw [List.mem_singleton] at hb
      subst hb
      exact hp hq
    · rw [ha]
      show s.model ++ _ = modelFor (s.file_queue ++ [p])
      rw [hm]
      simp [modelFor, List.enum_append, List.enumFrom]

lemma foldl_addFile_inv (ps : List String) :
    ∀ s, QueueInv s → QueueInv (ps.foldl addFile s) := by
  induction ps with
  | nil => intro s h; exact h
  | cons p ps ih => intro s h; exact ih _ (addFile_inv s p h)

lemma modelFor_map_full_path (q : List String) :
    (modelFor q).map FileItem.full_path = q := by
  simp [modelFor, List.map_map, Function.comp_def, List.enum_map_snd]

lemma modelFor_map_id (q : List String) :
    (modelFor q).map FileItem.id = List.range' 1 q.length := by
  simp only [modelFor, List.map_map, Function.comp_def]
  have h1 : (fun pr : Nat × String => pr.1 + 1)
      = (fun pr : Nat × String => pr.1 + 1) := rfl
  rw [show (List.range' 1 q.length) = (List.range q.length).map (fun i => i + 1) by
    rw [List.range'_eq_map_range]; exact List.map_congr_left (fun a _ => by omega)]
  rw [← List.enum_map_fst q, List.map_map]
  rfl

lemma modelFor_map_status (q : List String) :
    (modelFor q).map FileItem.status
      = List.replicate q.length Status.pending := by
  simp [modelFor, List.map_map, Function.comp_def, List.map_const']

/-- C1: over any sequence of `add_file_to_queue` calls starting from the
empty state, the queue lists each distinct path exactly once in
first-seen order (and a path is queued iff it was added); the queue has
no duplicate `source_path`; the display model mirrors the queue, its
rows carry the 1-based sequence ids 1..n in order and all have status
Pending; and adding an already-present path changes nothing at all. -/
theorem c1_add_queue_dedup (ps : List String) :
    (addAll ps).file_queue = firstSeen ps ∧
    (∀ p, p ∈ (addAll ps).file_queue ↔ p ∈ ps) ∧
    (addAll ps).file_queue.Nodup ∧
    (addAll ps).model.map FileItem.full_path = (addAll ps).file_queue ∧
    (addAll ps).model.map FileItem.id
      = List.range' 1 (addAll ps).file_queue.length ∧
    (addAll ps).model.map FileItem.status
      = List.replicate (addAll ps).file_queue.length Status.pending ∧
    (∀ p, p ∈ (addAll ps).file_queue → addFile (addAll ps) p = addAll ps) := by
  have hinv : QueueInv (addAll ps) :=
    foldl_addFile_inv ps initState ⟨List.nodup_nil, rfl⟩
  obtain ⟨hnd, hm⟩ := hinv
  have hqf : (addAll ps).file_queue = firstSeen ps := by
    simpa [addAll, initState, firstSeen] using foldl_addFile_queue ps initState
  refine ⟨hqf, ?_, hnd, ?_, ?_, ?_, ?_⟩
  · intro p
    rw [hqf, firstSeen, mem_firstSeenAux]
    simp
  · rw [hm, modelFor_map_full_path]
  · rw [hm, modelFor_map_id]
  · rw [hm, modelFor_map_status]
  · intro p hp
    simp [addFile, hp]

/-- C1 witness: adding a, b, a yields queue [a, b] with ids [1, 2], and
re-adding a is a no-op. -/
theorem c1_add_queue_dedup_witness :
    (addAll [("a"), ("b"), ("a")]).file_queue = [("a"), ("b")] ∧
    (addAll [("a"), ("b"), ("a")]).model.map FileItem.id = [1, 2] ∧
    addFile (addAll [("a"), ("b"), ("a")]) ("a") = addAll [("a"), ("b"), ("a")] := by
  have h := c1_add_queue_dedup [("a"), ("b"), ("a")]
  refine ⟨?_, ?_, h.2.2.2.2.2.2 ("a") (by decide)⟩
  · rw [h.1]; decide
  · rw [h.2.2.2.2.1, h.1]; decide

/-- C2: over a run of n >= 1 items, the k-th reported fraction is
exactly (k+1)/n (0-based k, so the fractions are 1/n .. n/n in emission
order), the sequence is non-decreasing, and the last reported fraction
is exactly 1. -/
theorem c2_progress_fractions (n : Nat) (hn : 1 ≤ n) :
    (progressEvents n).length = n ∧
    (∀ k, k < n →
      (progressEvents n)[k]? = some (((k : ℚ) + 1) / (n : ℚ))) ∧
    (∀ i j, i ≤ j → j < n →
      (progressEvents n).getD i 0 ≤ (progressEvents n).getD j 0) ∧
    (progressEvents n).getLast? = some 1 := by
  have hget : ∀ k, k < n →
      (progressEvents n)[k]? = some (((k : ℚ) + 1) / (n : ℚ)) := by
    intro k hk
    simp [progressEvents, List.getElem?_map, List.getElem?_range, hk]
  refine ⟨by simp [progressEvents], hget, ?_, ?_⟩
  · intro i j hij hj
    have hi := lt_of_le_of_lt hij hj
    rw [List.getD_eq_getElem?_getD, List.getD_eq_getElem?_getD,
      hget i hi, hget j hj]
    simp only [Option.getD_some]
    have hn0 : (0 : ℚ) < (n : ℚ) := by
      exact_mod_cast Nat.lt_of_lt_of_le Nat.zero_lt_one hn
    have hle : ((i : ℚ) + 1) ≤ ((j : ℚ) + 1) := by
      exact_mod_cast Nat.add_le_add_right hij 1
    exact (div_le_div_iff_of_pos_right hn0).mpr hle
  · obtain ⟨m, rfl⟩ : ∃ m, n = m + 1 :=
      ⟨n - 1, (Nat.succ_pred_eq_of_pos hn).symm⟩
    rw [progressEvents, List.range_succ, List.map_append]
    simp only [List.map_cons, List.map_nil]
    rw [List.getLast?_append_cons]
    have hcast : ((m + 1 : Nat) : ℚ) = (m : ℚ) + 1 := by push_cast; ring
    have hval : ((m : ℚ) + 1) / ((m + 1 : Nat) : ℚ) = 1 := by
      rw [hcast]
      exact div_self (by positivity)
    simp [hval]
    exact div_self (by positivity)

/-- C2 witness: for a three-item run the second reported fraction is
2/3 and the final one is 1. -/
theorem c2_progress_fractions_witness :
    (progressEvents 3)[1]? = some (2 / 3) ∧
    (progressEvents 3).getLast? = some 1 := by
  have h := c2_progress_fractions 3 (by norm_num)
  refine ⟨?_, h.2.2.2⟩
  rw [h.2.1 1 (by norm_num)]
  norm_num

lemma deferredSchedule_valid (n : Nat) (hn : 1 ≤ n) :
    ValidSchedule n (deferredSchedule n) := by
  constructor
  · intro k l _
    exact le_refl _
  · intro k hk
    unfold deferredSchedule
    omega

/-- Sanity check of the schedule model: when the main loop runs every
callback before the worker queues the next one, both items of a
two-item all-success run end Done. -/
theorem prompt_drain_two_items_done :
    runDisplay [true, true] promptSchedule = [Status.done, Status.done] := by
  decide

/-- C3: refuted on the code.  The status closures capture the loop
variable `item` late; under the legal schedule in which the main loop
drains the queued idle callbacks only after the worker loop has exited
(all of them then read the last row), a two-item run that succeeds on
both items reaches `finish_conversion` with row 0 still Pending — not
every item is terminal when "Extraction Complete" is raised. -/
theorem c3_items_left_pending_bug :
    ValidSchedule 2 (deferredSchedule 2) ∧
    runDisplay [true, true] (deferredSchedule 2)
      = [Status.pending, Status.done] := by
  exact ⟨deferredSchedule_valid 2 (by norm_num), by decide⟩

/-- C5: refuted on the code.  The worker does compute Error for the
failing first item and Done for the second, continues past the failure
and invokes the verifier exactly once per item; but under the legal
deferred drain both terminal writes land on the last row, so the
failing item ends Pending on screen instead of Error. -/
theorem c5_failure_isolation_bug :
    ValidSchedule 2 (deferredSchedule 2) ∧
    verdictsOf (some ("openssl")) spawnC5 2 = [false, true] ∧
    computedStatuses (some ("openssl")) spawnC5 2
      = [Status.error, Status.done] ∧
    runInvocations ("openssl") none itemsC5
      = [cmdFor ("openssl") none
          ⟨1, ("a.p7m"), ("/d"), ("/d/a.p7m"), Status.pending⟩,
         cmdFor ("openssl") none
          ⟨2, ("b.p7m"), ("/d"), ("/d/b.p7m"), Status.pending⟩] ∧
    (runInvocations ("openssl") none itemsC5).length = 2 ∧
    runDisplay (verdictsOf (some ("openssl")) spawnC5 2) (deferredSchedule 2)
      = [Status.pending, Status.done] := by
  exact ⟨deferredSchedule_valid 2 (by norm_num), by decide, by decide,
    by decide, by decide, by decide⟩

/-- C4: refuted on the code.  With openssl absent, `check_openssl`
disables the Extract button at startup and shows the error label, but
`update_ui_state` re-enables the button as soon as one file is added;
a run then started does not refuse to run: the per-item spawn failure
is caught and the item is marked Error, not left Pending. -/
theorem c4_missing_verifier_bug :
    (checkOpenssl false initUI).convertSensitive = false ∧
    (checkOpenssl false initUI).statusLabel = ("Error: OpenSSL not found") ∧
    (updateUiState 1 (checkOpenssl false initUI)).convertSensitive = true ∧
    computedStatuses none (fun _i => Except.ok (0, (""))) 1 = [Status.error] ∧
    ¬ computedStatuses none (fun _i => Except.ok (0, (""))) 1
        = [Status.pending] := by
  decide

lemma splitLastChar_of_not_mem (c : Char) (l : List Char) (h : c ∉ l) :
    splitLastChar c l = none := by
  induction l with
  | nil => rfl
  | cons a rest ih =>
    simp only [List.mem_cons, not_or] at h
    obtain ⟨h1, h2⟩ := h
    simp only [splitLastChar, ih h2]
    rw [if_neg (fun he => h1 he.symm)]

lemma splitLastChar_append_last (c : Char) (s e : List Char) (he : c ∉ e) :
    splitLastChar c (s ++ c :: e) = some (s, e) := by
  induction s with
  | nil =>
    simp [List.nil_append, splitLastChar, splitLastChar_of_not_mem c e he]
  | cons a s ih =>
    simp only [List.cons_append, splitLastChar, List.append_eq, ih]

lemma splitextBase_stem (stem ext : List Char)
    (hst : stem.any (fun x => ! (x == '.')) = true) (he : '.' ∉ ext) :
    splitextBase (stem ++ '.' :: ext) = stem := by
  simp [splitextBase, splitLastChar_append_last '.' stem ext he, hst]

/-- C6: the resolved output path is the item's stored base name with its
extension replaced by ".pdf" (for a name of the form stem.ext whose stem
contains a non-dot character and whose ext contains no dot), joined to
the override directory when that is set and non-empty and to the item's
own source directory otherwise; in particular the fields derived from
input /a/b/report.p7m resolve to /a/b/report.pdf without an override
and to /x/y/report.pdf with override /x/y. -/
theorem c6_output_path (stem ext : List Char) (srcDir ov : String)
    (hst : stem.any (fun x => ! (x == '.')) = true)
    (he : '.' ∉ ext) (hov : ¬ ov = ("")) :
    resolveOut (String.mk (stem ++ '.' :: ext)) srcDir none
      = String.mk (pjoin srcDir.data (stem ++ (".pdf").data)) ∧
    resolveOut (String.mk (stem ++ '.' :: ext)) srcDir (some ov)
      = String.mk (pjoin ov.data (stem ++ (".pdf").data)) ∧
    resolveOut (basenameS ("/a/b/report.p7m")) (dirnameS ("/a/b/report.p7m"))
        none = ("/a/b/report.pdf") ∧
    resolveOut (basenameS ("/a/b/report.p7m")) (dirnameS ("/a/b/report.p7m"))
        (some ("/x/y")) = ("/x/y/report.pdf") := by
  refine ⟨?_, ?_, by decide, by decide⟩
  · simp [resolveOut, splitextBase_stem stem ext hst he]
  · simp [resolveOut, hov, splitextBase_stem stem ext hst he]

/-- C6 witness: the general output-path form applied at stem "report",
extension "p7m", source directory "/a/b", override "/x/y", together
with the concrete resolution of /a/b/report.p7m. -/
theorem c6_output_path_witness :
    resolveOut (String.mk ((("report").data) ++ '.' :: (("p7m").data)))
        ("/a/b") none
      = String.mk (pjoin (("/a/b").data) ((("report").data) ++ (".pdf").data)) ∧
    resolveOut (basenameS ("/a/b/report.p7m")) (dirnameS ("/a/b/report.p7m"))
        none = ("/a/b/report.pdf") := by
  have h := c6_output_path (("report").data) (("p7m").data) ("/a/b") ("/x/y")
    (by decide) (by decide) (by decide)
  exact ⟨h.1, h.2.2.1⟩

/-- C7 counterexample: in an environment where no directory exists (in
particular the resolved output directory /gone of the single queued
item), the run still performs a verifier invocation for that item — the
claim that the external verifier is never invoked for an item with a
missing output directory is false of the code, which contains no
existence or writability check at all. -/
theorem c7_verifier_invoked_counterexample :
    dirExistsC7 (dirnameS (resolveOut itemC7.filename itemC7.path none))
      = false ∧
    ¬ runInvocations ("openssl") none [itemC7] = [] ∧
    (runInvocations ("openssl") none [itemC7]).length = 1 := by
  decide

/-- C7 amended: the code performs no pre-invocation check of the
resolved output directory (and never creates directories — the
conversion path has no directory-creating call to model); the verifier
is invoked exactly once for the item even though /gone does not exist,
and the resulting nonzero exit marks the item Error; there is no
separate PathError kind. -/
theorem c7_no_path_precheck :
    runInvocations ("openssl") none [itemC7]
      = [[("openssl"), ("smime"), ("-verify"), ("-noverify"), ("-binary"),
          ("-inform"), ("DER"), ("-in"), ("/gone/r.p7m"), ("-out"),
          ("/gone/r.pdf")]] ∧
    computedStatuses (some ("openssl")) spawnC7 1 = [Status.error] := by
  decide

/-- C8: a completed verifier process succeeds exactly when its exit
status is zero; the outcome never depends on the captured standard
error text; a spawn failure yields the same non-success (the item is
marked Error) as a nonzero exit; and the spawn failure retains a
distinguishing logged detail string. -/
theorem c8_verifier_success_criterion :
    (∀ rc : Int, ∀ serr : String,
      ((runVerifier (Except.ok (rc, serr))).1 = true ↔ rc = 0)) ∧
    (∀ rc : Int, ∀ s1 s2 : String,
      runVerifier (Except.ok (rc, s1)) = runVerifier (Except.ok (rc, s2))) ∧
    (∀ e : String, (runVerifier (Except.error e)).1 = false) ∧
    (∀ e : String, ∀ rc : Int, ∀ serr : String, ¬ rc = 0 →
      (runVerifier (Except.error e)).1
        = (runVerifier (Except.ok (rc, serr))).1) ∧
    (∀ e : String,
      (runVerifier (Except.error e)).2 = some (("Conversion error: ") ++ e)) := by
  refine ⟨?_, ?_, ?_, ?_, ?_⟩
  · intro rc serr
    simp [runVerifier]
  · intro rc s1 s2
    rfl
  · intro e
    rfl
  · intro e rc serr h
    simp [runVerifier]
    exact fun hc => absurd hc h
  · intro e
    rfl

/-- C8 witness: a spawn failure and an exit-status-1 completion produce
the same success flag. -/
theorem c8_verifier_success_criterion_witness :
    (runVerifier (Except.error ("spawn failure"))).1
      = (runVerifier (Except.ok (1, ("bad signature")))).1 :=
  c8_verifier_success_criterion.2.2.2.1 ("spawn failure") 1 ("bad signature")
    (by decide)

/-- C10: duplicate detection compares the raw path string only, so the
two distinct strings /a/b.p7m and /a/./b.p7m — equal after collapsing
the redundant "." segment, hence denoting the same file — are admitted
as two separate queue items. -/
theorem c10_raw_string_dedup :
    ¬ (("/a/b.p7m") : String) = ("/a/./b.p7m") ∧
    normPath (("/a/b.p7m").data) = normPath (("/a/./b.p7m").data) ∧
    (addAll [("/a/b.p7m"), ("/a/./b.p7m")]).file_queue
      = [("/a/b.p7m"), ("/a/./b.p7m")] ∧
    (addAll [("/a/b.p7m"), ("/a/./b.p7m")]).model.length = 2 := by
  decide

lemma p7mRev_slash (l r : List Char) :
    p7mRev (l ++ '/' :: r) = p7mRev l := by
  rcases l with _ | ⟨a, _ | ⟨b, _ | ⟨c, _ | ⟨e, rest⟩⟩⟩⟩
  · rcases r with _ | ⟨x1, _ | ⟨x2, _ | ⟨x3, rtl⟩⟩⟩
    · simp [p7mRev]
    · simp [p7mRev]
    · simp [p7mRev]
    · simp [p7mRev, show (lowerC '/' == 'm') = false from by decide]
  · rcases r with _ | ⟨x1, _ | ⟨x2, rtl⟩⟩
    · simp [p7mRev]
    · simp [p7mRev]
    · simp [p7mRev, show (lowerC '/' == '7') = false from by decide]
  · rcases r with _ | ⟨x1, rtl⟩
    · simp [p7mRev]
    · simp [p7mRev, show (lowerC '/' == 'p') = false from by decide]
  · simp [p7mRev, show (lowerC '/' == '.') = false from by decide]
  · simp [p7mRev, List.cons_append]

lemma isP7m_slash (dir nm : List Char) :
    isP7m (dir ++ '/' :: nm) = isP7m nm := by
  unfold isP7m
  have hrev : (dir ++ '/' :: nm).reverse = nm.reverse ++ '/' :: dir.reverse := by
    simp
  rw [hrev, p7mRev_slash]

mutual
theorem walkEntry_eq (root : List Char) :
    ∀ e : FSEntry, walkEntry root e
      = (allFilesEntry root e).filterMap
          (fun pn => if isP7m pn.2 then some pn.1 else none)
  | FSEntry.file n => by
    by_cases h : isP7m n = true <;> simp [walkEntry, allFilesEntry, h]
  | FSEntry.dir n cs => by
    simp [walkEntry, allFilesEntry, walkList_eq (pjoin root n) cs]
theorem walkList_eq (root : List Char) :
    ∀ l : FSList, walkList root l
      = (allFilesList root l).filterMap
          (fun pn => if isP7m pn.2 then some pn.1 else none)
  | FSList.nil => rfl
  | FSList.cons e rest => by
    simp [walkList, allFilesList, List.filterMap_append,
      walkEntry_eq root e, walkList_eq root rest]
end

lemma mem_walkList (root : List Char) (l : FSList) (p : List Char) :
    p ∈ walkList root l ↔
      ∃ pn ∈ allFilesList root l, pn.1 = p ∧ isP7m pn.2 = true := by
  rw [walkList_eq root l, List.mem_filterMap]
  apply exists_congr
  intro a
  apply and_congr_right
  intro _
  by_cases h : isP7m a.2 = true
  · simp [h]
  · simp [h]

/-- C9: a discovery input that is a regular file is made a candidate iff
the path passes the case-insensitive ".p7m" test; a directory input
contributes exactly those regular files, at any depth of its tree,
whose bare name passes that test; nothing else is ever a candidate.
The final conjunct relates the two forms of the test: on a path that
ends in slash-name, the test is equivalent to the test on the name
alone, so the file clause is indeed about the file's name. -/
theorem c9_discovery_characterisation (inputs : List (List Char × PathKind))
    (p : List Char) :
    (p ∈ processAddedItems inputs ↔
      ∃ pk ∈ inputs,
        match pk.2 with
        | PathKind.file => isP7m pk.1 = true ∧ p = pk.1
        | PathKind.dir cs =>
          ∃ pn ∈ allFilesList pk.1 cs, pn.1 = p ∧ isP7m pn.2 = true
        | PathKind.missing => False) ∧
    (∀ dir nm : List Char, isP7m (dir ++ '/' :: nm) = isP7m nm) := by
  refine ⟨?_, fun dir nm => isP7m_slash dir nm⟩
  rw [processAddedItems, List.mem_flatMap]
  apply exists_congr
  intro pk
  apply and_congr_right
  intro _
  rcases pk with ⟨path, kind⟩
  cases kind with
  | file =>
    by_cases h : isP7m path = true
    · simp [h]
    · simp [h]
  | dir cs =>
    simpa using mem_walkList path cs p
  | missing => simp

/-- C9 witness: in the concrete tree, the nested file b.P7m two levels
below the scanned directory /r is discovered, and the path-level test
agrees with the name-level test on /d slash x.p7m. -/
theorem c9_discovery_characterisation_witness :
    (("/r/sub/b.P7m").data ∈ processAddedItems inputsC9) ∧
    isP7m ((("/d").data) ++ '/' :: (("x.p7m").data))
      = isP7m (("x.p7m").data) := by
  have h := c9_discovery_characterisation inputsC9 (("/r/sub/b.P7m").data)
  refine ⟨h.1.mpr ?_, h.2 (("/d").data) (("x.p7m").data)⟩
  refine ⟨((("/r").data), PathKind.dir (fsList
    [FSEntry.file (("a.txt").data),
     FSEntry.dir (("sub").data) (fsList [FSEntry.file (("b.P7m").data)])])),
    List.mem_cons.mpr (Or.inr (List.mem_cons.mpr (Or.inl rfl))), ?_⟩
  show ∃ pn ∈ allFilesList (("/r").data) (fsList
    [FSEntry.file (("a.txt").data),
     FSEntry.dir (("sub").data) (fsList [FSEntry.file (("b.P7m").data)])]),
    pn.1 = ("/r/sub/b.P7m").data ∧ isP7m pn.2 = true
  decide

end P7M
